import Mathlib

/-!
Shallow embedding of the Filecoin blockchain engine of
`src/src/chains/filecoin/filecoin/src/blockchain.ts` (class `Blockchain`).

The embedding translates the engine's operations (`push`, `mineTipset`,
`startDeal`, `retrieve`) into pure Lean functions over an explicit chain
state.  Collaborators that live outside `src/` (the account manager, the
address parser, the gas helpers, the deal-state enumeration) are modelled
from the specification and carry a doc comment saying so.  Arbitrary
precision JavaScript `BigInt`/`number` amounts appear as `Nat` (the spec
declares every integer field non-negative).
-/

deriving instance DecidableEq for Except

namespace GanacheFilecoin

/-- Modelled from the spec: `AddressProtocol` lives in `things/address.ts`,
which is absent from `src/`.  The spec lists the protocols as
ID, SECP256K1, BLS, Actor and Unknown. -/
inductive AddressProtocol where
  | ID
  | SECP256K1
  | Actor
  | BLS
  | Unknown
deriving DecidableEq, Repr

/-- Modelled from the spec: `Address.parseProtocol` lives in
`things/address.ts`, absent from `src/`.  The spec describes an address as a
tagged string whose protocol prefix determines the protocol; Filecoin textual
addresses carry the protocol as the digit following the one-character network
prefix (`t0…` is ID, `t1…` is SECP256K1, `t2…` is Actor, `t3…` is BLS,
anything else is Unknown). -/
def parseProtocol (addr : String) : AddressProtocol :=
  match addr.toList with
  | _ :: '0' :: _ => AddressProtocol.ID
  | _ :: '1' :: _ => AddressProtocol.SECP256K1
  | _ :: '2' :: _ => AddressProtocol.Actor
  | _ :: '3' :: _ => AddressProtocol.BLS
  | _ => AddressProtocol.Unknown

/-- An account record: balance and the next nonce to assign
(spec section 3, `accounts/<address>` ledger entries). -/
structure Account where
  balance : Nat
  nonce : Nat
deriving DecidableEq, Repr

/-- The account ledger, keyed by textual address. -/
abbrev Accounts := List (String × Account)

/-- Modelled from the spec: `AccountManager.getAccount` lives in
`data-managers/account-manager.ts`, absent from `src/`.  The spec says it
returns the current snapshot and lazily creates a zero-balance record for
unknown addresses; the lazy creation is modelled by a total read that
defaults to a zero account, which is observationally equivalent for every
balance and nonce read. -/
def getAccount (accounts : Accounts) (a : String) : Account :=
  match accounts.lookup a with
  | some acct => acct
  | none => { balance := 0, nonce := 0 }

/-- Modelled from the spec: the account managers are write-through caches
keyed by address (spec section 4.1).  `setAccount` is the key-value
overwrite of the record of address `a`, written as the standard functional
map update (the entry order of the association list is internal
representation; only `getAccount` observes it). -/
def setAccount (accounts : Accounts) (a : String) (acct : Account) : Accounts :=
  (a, acct) :: accounts.filter (fun p => p.1 != a)

/-- Modelled from the spec: `AccountManager.transferFunds` is absent from
`src/`.  Per spec section 4.5 it is an atomic debit-then-credit that returns
`false` exactly when the sender's balance is below the amount, with no
partial mutation on failure. -/
def transferFunds (accounts : Accounts) (f t : String) (amount : Nat) :
    Bool × Accounts :=
  let fromAcct := getAccount accounts f
  if fromAcct.balance < amount then
    (false, accounts)
  else
    let accounts1 := setAccount accounts f
      { fromAcct with balance := fromAcct.balance - amount }
    let toAcct := getAccount accounts1 t
    (true, setAccount accounts1 t
      { toAcct with balance := toAcct.balance + amount })

/-- Modelled from the spec: `AccountManager.incrementNonce` is absent from
`src/`.  Per spec section 4.5 it bumps the address's nonce by one. -/
def incrementNonce (accounts : Accounts) (a : String) : Accounts :=
  let acct := getAccount accounts a
  setAccount accounts a { acct with nonce := acct.nonce + 1 }

/-- An unsigned message (spec section 3; `things/message.ts`).  `from_` and
`to_` carry the textual addresses (`from` is a Lean keyword). -/
structure Message where
  from_ : String
  to_ : String
  nonce : Nat
  value : Nat
  method : Nat
  gasLimit : Nat
  gasFeeCap : Nat
  gasPremium : Nat
deriving DecidableEq, Repr

/-- Signature types (`things/sig-type.ts`, absent from `src/`; the spec
names BLS and SECP). -/
inductive SigType where
  | SigTypeBLS
  | SigTypeSecp256k1
deriving DecidableEq, Repr

/-- A signed message: the message plus the signature's type.  The signature
bytes themselves are produced by external cryptography (out of scope per the
spec) and play no role in the engine's control flow, so they are omitted. -/
structure SignedMessage where
  message : Message
  sigType : SigType
deriving DecidableEq, Repr

/-- The distinct submission-time error kinds of `push`
(spec section 7; `blockchain.ts` lines 263-342). -/
inductive PushError where
  | UnsupportedMethod
  | InvalidNonce
  | InvalidProtocol
  | InsufficientFunds
deriving DecidableEq, Repr

/-- A block header with the fields `mineTipset` reads and writes
(`things/block-header.ts` is absent from `src/`; per the spec,
`electionProof.winCount` defaults to 1, which is flattened into the
`winCount` field here).  Block CIDs are external content hashing and are
supplied to the operations as a function `BlockHeader → Nat`. -/
structure BlockHeader where
  miner : String
  parents : List Nat
  height : Nat
  parentWeight : Nat
  winCount : Nat
deriving DecidableEq, Repr

instance : Inhabited BlockHeader :=
  ⟨{ miner := "", parents := [], height := 0, parentWeight := 0, winCount := 1 }⟩

/-- A tipset: blocks plus height (spec section 3). -/
structure Tipset where
  blocks : List BlockHeader
  height : Nat
deriving DecidableEq, Repr

/-- The derived `cids` field of a tipset: the content identifiers of its
blocks, in order (`things/tipset.ts`). -/
def Tipset.cids (blockCid : BlockHeader → Nat) (ts : Tipset) : List Nat :=
  ts.blocks.map blockCid

/-- Modelled from the spec: `StorageDealStatus` lives in
`types/storage-deal-status.ts`, absent from `src/`.  The spec gives the
linear chain `Validating → Staged → … → Active → Expired`; the unspecified
middle of the chain is modelled by the single state `Sealing`. -/
inductive StorageDealStatus where
  | Validating
  | Staged
  | Sealing
  | Active
  | Expired
deriving DecidableEq, Repr

/-- Modelled from the spec: `DealInfo.advanceState` is absent from `src/`;
per the spec it moves a deal to the next state of the linear chain. -/
def advanceState : StorageDealStatus → StorageDealStatus
  | StorageDealStatus.Validating => StorageDealStatus.Staged
  | StorageDealStatus.Staged => StorageDealStatus.Sealing
  | StorageDealStatus.Sealing => StorageDealStatus.Active
  | StorageDealStatus.Active => StorageDealStatus.Expired
  | StorageDealStatus.Expired => StorageDealStatus.Expired

/-- The deal fields the engine's control flow reads: the identifier and the
current state (`things/deal-info.ts`). -/
structure DealInfo where
  dealId : Nat
  state : StorageDealStatus
deriving DecidableEq, Repr

/-- The engine state touched by the embedded operations: the message pool,
the account ledger, the in-memory latest tipset, the persisted
block-messages index (block CID paired with the messages attributed to it),
the deal registry and the identifiers of the in-process deals.  JavaScript
shares one mutable `DealInfo` object between `deals` and `inProcessDeals`;
the sharing is modelled by storing the deal records once in `deals` and
keeping only identifiers in `inProcessDealIds`. -/
structure ChainState where
  messagePool : List SignedMessage
  accounts : Accounts
  latest : Tipset
  blockMessages : List (Nat × List SignedMessage)
  deals : List DealInfo
  inProcessDealIds : List Nat
deriving DecidableEq, Repr

/-- `BurntFundsAddress` (blockchain.ts line 45). -/
def BurntFundsAddress : String := "t099"

/-- `this.miner` (blockchain.ts line 84). -/
def minerAddress : String := "t01000"

/-- The pool messages pending from `sender`
(`pendingMessagesForAccount`, blockchain.ts lines 300-302). -/
def pendingFor (st : ChainState) (sender : String) : List SignedMessage :=
  st.messagePool.filter (fun q => q.message.from_ == sender)

/-- The nonce `push` assigns under the pool lock (blockchain.ts lines
304-320): `account.nonce` when the sender has no pool entries, otherwise one
more than the fold of `max` over the pending nonces seeded with
`account.nonce`. -/
def assignedNonce (st : ChainState) (m : Message) : Nat :=
  let account := getAccount st.accounts m.from_
  let pending := pendingFor st m.from_
  if pending.length = 0 then
    account.nonce
  else
    (pending.foldl (fun nonce q => max nonce q.message.nonce) account.nonce) + 1

/-- `messageBalanceRequired` (blockchain.ts lines 323-324):
`gasFeeCap * gasLimit + value`. -/
def requiredFor (m : Message) : Nat :=
  m.gasFeeCap * m.gasLimit + m.value

/-- `pendingBalanceRequired` (blockchain.ts lines 325-334): the same
quantity summed over the sender's pending pool messages. -/
def pendingRequired (pending : List SignedMessage) : Nat :=
  pending.foldl
    (fun balanceSpent q =>
      balanceSpent + q.message.gasFeeCap * q.message.gasLimit + q.message.value)
    0

/-- `Blockchain.push` (blockchain.ts lines 260-364).  Validation failures
throw before anything is appended, so they return the state unchanged; on
success the signed message (signature type always `SigTypeBLS`, line 349) is
appended to the pool via `pushSigned(signedMessage, false)`.  `checkMessage`
(in `message.ts`, absent from `src/`) performs no check that can reject an
engine-signed value transfer per the spec's validator description, so it is
modelled as accepting; `fillGasInformation` only fills the gas fields, so
the input message is taken to be the gas-filled one. -/
def push (st : ChainState) (m : Message) :
    Except PushError SignedMessage × ChainState :=
  if m.method ≠ 0 then
    (Except.error PushError.UnsupportedMethod, st)
  else if m.nonce ≠ 0 then
    (Except.error PushError.InvalidNonce, st)
  else if parseProtocol m.from_ = AddressProtocol.ID ∨
      parseProtocol m.from_ = AddressProtocol.Unknown then
    (Except.error PushError.InvalidProtocol, st)
  else if parseProtocol m.to_ = AddressProtocol.ID ∨
      parseProtocol m.to_ = AddressProtocol.Unknown then
    (Except.error PushError.InvalidProtocol, st)
  else
    let account := getAccount st.accounts m.from_
    let pending := pendingFor st m.from_
    let m' := { m with nonce := assignedNonce st m }
    if account.balance < requiredFor m' + pendingRequired pending then
      (Except.error PushError.InsufficientFunds, st)
    else
      let signedMessage : SignedMessage :=
        { message := m', sigType := SigType.SigTypeBLS }
      (Except.ok signedMessage,
        { st with messagePool := st.messagePool ++ [signedMessage] })

/-- One message application inside `mineTipset` (blockchain.ts lines
448-513), parametric in the values of `getBaseFee()` and `getMinerFee`
(both live in `gas.ts`, absent from `src/`).  When `baseFee ≠ 0` the miner
fee is first burned to `BurntFundsAddress`; then the miner fee is paid to
the miner; then the principal value is paid to the recipient.  The first
failed transfer skips the message (`continue`) without reversing earlier
transfers; only a fully applied message increments the sender's nonce.
Returns the updated ledger and whether the message was applied. -/
def applyMessage (baseFee : Nat) (minerFee : Message → Nat)
    (accounts : Accounts) (sm : SignedMessage) : Accounts × Bool :=
  let m := sm.message
  let burn :=
    if baseFee ≠ 0 then
      transferFunds accounts m.from_ BurntFundsAddress (minerFee m)
    else
      (true, accounts)
  if burn.1 = false then
    (burn.2, false)
  else
    let fee := transferFunds burn.2 m.from_ minerAddress (minerFee m)
    if fee.1 = false then
      (fee.2, false)
    else
      let val := transferFunds fee.2 m.from_ m.to_ m.value
      if val.1 = false then
        (val.2, false)
      else
        (incrementNonce val.2 m.from_, true)

/-- The `for (const signedMessage of nextMessagePool)` loop of `mineTipset`
(blockchain.ts lines 447-513): messages are applied in batch order and the
successfully applied ones are collected, in order, into
`successfulMessages`. -/
def applyMessages (baseFee : Nat) (minerFee : Message → Nat) :
    Accounts → List SignedMessage → Accounts × List SignedMessage
  | accounts, [] => (accounts, [])
  | accounts, sm :: rest =>
    let r := applyMessage baseFee minerFee accounts sm
    let r2 := applyMessages baseFee minerFee r.1 rest
    (r2.1, (if r.2 then [sm] else []) ++ r2.2)

/-- `deal.advanceState()` applied through the shared-object model: advance
the state of the deal with identifier `id` inside the registry. -/
def advanceDealAt (deals : List DealInfo) (id : Nat) : List DealInfo :=
  deals.map (fun d =>
    if d.dealId == id then { d with state := advanceState d.state } else d)

/-- Read the state of the deal with identifier `id` (the JavaScript code
reads `deal.state` off the shared object). -/
def dealState (deals : List DealInfo) (id : Nat) : StorageDealStatus :=
  match deals.find? (fun d => d.dealId == id) with
  | some d => d.state
  | none => StorageDealStatus.Expired

/-- The `for (const deal of this.inProcessDeals)` loop of `mineTipset`
(blockchain.ts lines 534-541), with JavaScript array-iterator semantics made
explicit: the iterator reads index `p`, advances that deal, and when the
deal reached `Active` it is spliced out at `p`, which shifts the remaining
entries left while the iterator still moves on to read index `p + 1` — so
the entry that directly followed a removed one is never visited.  Each
iteration moves the read index forward once and the list never grows, so
`fuel = ids.length` (supplied by `advanceDeals`) is exactly enough for the
loop to run to completion. -/
def advanceDealsLoop (fuel : Nat) (deals : List DealInfo) (ids : List Nat)
    (p : Nat) : List DealInfo × List Nat :=
  match fuel with
  | 0 => (deals, ids)
  | fuel' + 1 =>
    if h : p < ids.length then
      let id := ids.get ⟨p, h⟩
      let deals' := advanceDealAt deals id
      if dealState deals' id = StorageDealStatus.Active then
        advanceDealsLoop fuel' deals' (ids.eraseIdx p) (p + 1)
      else
        advanceDealsLoop fuel' deals' ids (p + 1)
    else
      (deals, ids)

/-- The deal-advancement pass of `mineTipset` (blockchain.ts lines
533-541). -/
def advanceDeals (deals : List DealInfo) (ids : List Nat) :
    List DealInfo × List Nat :=
  advanceDealsLoop ids.length deals ids 0

/-- `Blockchain.mineTipset` (blockchain.ts lines 406-552), parametric in
the external block-CID hash and in the gas constants.  The pool is drained
into the batch; `numNewBlocks` identical headers are built at height
`latest.height + 1` with the first previous block as single parent and
`parentWeight = winCount + parentWeight` of that block (the loop body does
not depend on the loop index, hence `List.replicate`); the batch is applied;
when the batch was non-empty the successful messages are persisted against
the first new block's CID; the new tipset becomes `latest`; in-process deals
advance. -/
def mineTipset (blockCid : BlockHeader → Nat) (baseFee : Nat)
    (minerFee : Message → Nat) (numNewBlocks : Nat) (st : ChainState) :
    ChainState :=
  let nextMessagePool := st.messagePool
  let previousTipset := st.latest
  let newTipsetHeight := previousTipset.height + 1
  let parentBlock := previousTipset.blocks.headD default
  let newBlock : BlockHeader :=
    { miner := minerAddress
      parents := [(Tipset.cids blockCid previousTipset).headD 0]
      height := newTipsetHeight
      parentWeight := parentBlock.winCount + parentBlock.parentWeight
      winCount := 1 }
  let newBlocks := List.replicate numNewBlocks newBlock
  let applied := applyMessages baseFee minerFee st.accounts nextMessagePool
  let blockMessages' :=
    if nextMessagePool.length > 0 then
      st.blockMessages ++ [(blockCid (newBlocks.headD default), applied.2)]
    else
      st.blockMessages
  let advanced := advanceDeals st.deals st.inProcessDealIds
  { messagePool := []
    accounts := applied.1
    latest := { blocks := newBlocks, height := newTipsetHeight }
    blockMessages := blockMessages'
    deals := advanced.1
    inProcessDealIds := advanced.2 }

/-- `k` successive `mineTipset()` calls (each with the default single
block). -/
def mineN (blockCid : BlockHeader → Nat) (baseFee : Nat)
    (minerFee : Message → Nat) : Nat → ChainState → ChainState
  | 0, st => st
  | k + 1, st =>
    mineTipset blockCid baseFee minerFee 1
      (mineN blockCid baseFee minerFee k st)

/-- The submission-time error kinds of the deal operations
(spec section 7). -/
inductive DealError where
  | MissingWallet
  | UnknownPrivateKey
deriving DecidableEq, Repr

/-- Deal registration inside `startDeal` (blockchain.ts lines 672-693):
a new deal is created with `dealId = deals.length + 1` in state
`Validating`, appended to `deals`, and its identifier appended to the
in-process set.  Returns the new state and the new deal's identifier. -/
def registerDeal (st : ChainState) : ChainState × Nat :=
  let dealId := st.deals.length + 1
  ({ st with
      deals := st.deals ++ [{ dealId := dealId,
                              state := StorageDealStatus.Validating }]
      inProcessDealIds := st.inProcessDealIds ++ [dealId] },
    dealId)

/-- The instamine loop of `startDeal` (blockchain.ts lines 697-701):
`while (deal.state !== Active) await this.mineTipset()`.  The source loop is
unbounded, so the model takes explicit fuel; `none` stands for the loop not
having returned within the fuel. -/
def mineUntilActive (blockCid : BlockHeader → Nat) (baseFee : Nat)
    (minerFee : Message → Nat) (dealId : Nat) :
    Nat → ChainState → Option ChainState
  | 0, _ => none
  | fuel + 1, st =>
    if dealState st.deals dealId = StorageDealStatus.Active then
      some st
    else
      mineUntilActive blockCid baseFee minerFee dealId fuel
        (mineTipset blockCid baseFee minerFee 1 st)

/-- `Blockchain.startDeal` (blockchain.ts lines 642-712), parametric in the
external pieces: the CBOR proposal CID (`proposalCid`, derived from the
signature by external hashing), the set of addresses whose private keys the
engine holds (`privateKeyManager`, absent from `src/`), and the gas/CID
parameters threaded to `mineTipset`.  The wallet must be provided and its
key known; the deal is registered; under instamine the engine mines until
the deal is `Active`; then `epochPrice * minBlocksDuration` is transferred
from the wallet to `proposal.miner` with the transfer's boolean result
discarded, and the proposal CID is returned.  The outer `Option` is `none`
when the instamine loop did not return. -/
def startDeal (blockCid : BlockHeader → Nat) (baseFee : Nat)
    (minerFee : Message → Nat) (instamine : Bool) (fuel : Nat)
    (proposalCid : Nat) (wallet : Option String) (knownKeys : List String)
    (dealMiner : String) (epochPrice duration : Nat) (st : ChainState) :
    Option (Except DealError (Nat × ChainState)) :=
  match wallet with
  | none => some (Except.error DealError.MissingWallet)
  | some w =>
    if w ∈ knownKeys then
      let reg := registerDeal st
      let mined :=
        if instamine then
          mineUntilActive blockCid baseFee minerFee reg.2 fuel reg.1
        else
          some reg.1
      match mined with
      | none => none
      | some st2 =>
        let totalPrice := epochPrice * duration
        some (Except.ok (proposalCid,
          { st2 with
              accounts := (transferFunds st2.accounts w dealMiner totalPrice).2 }))
    else
      some (Except.error DealError.UnknownPrivateKey)

/-- The error kinds of `retrieve` (spec section 7). -/
inductive RetrieveError where
  | UnknownPrivateKey
  | ObjectNotFound
  | IOError
deriving DecidableEq, Repr

/-- The state `retrieve` touches: the account ledger, the fully written
files and the leftover `.partial` files of failed downloads. -/
structure RetrievalState where
  accounts : Accounts
  files : List String
  tempFiles : List String
deriving DecidableEq, Repr

/-- `Blockchain.retrieve` (blockchain.ts lines 727-752) together with
`downloadFile` (lines 582-640), parametric in the external collaborators:
the set of object CIDs held by the local IPFS node (`hasLocal`), the set of
addresses whose private keys the engine holds, and whether the streaming
download succeeds.  The client's key is checked before anything is written;
then local existence; then the object is streamed to `<path>.partial` and
renamed to `<path>`; only after a complete download is `order.total`
transferred from the client to the miner.  A failed download leaves the
partial file behind and transfers nothing. -/
def retrieve (localObjects : List Nat) (knownKeys : List String)
    (downloadOk : Bool) (client dealMiner : String) (total : Nat)
    (root : Nat) (refPath : String) (st : RetrievalState) :
    Except RetrieveError Unit × RetrievalState :=
  if knownKeys.contains client = false then
    (Except.error RetrieveError.UnknownPrivateKey, st)
  else if localObjects.contains root = false then
    (Except.error RetrieveError.ObjectNotFound, st)
  else if downloadOk then
    (Except.ok (),
      { accounts := (transferFunds st.accounts client dealMiner total).2
        files := st.files ++ [refPath]
        tempFiles := st.tempFiles })
  else
    (Except.error RetrieveError.IOError,
      { st with tempFiles := st.tempFiles ++ [refPath ++ ".partial"] })

/-! ## Ledger lemmas -/

theorem lookup_filter_ne (l : Accounts) (a x : String) (hx : x ≠ a) :
    (l.filter (fun p => p.1 != a)).lookup x = l.lookup x := by
  induction l with
  | nil => rfl
  | cons p rest ih =>
    by_cases hp : p.1 = a
    · have hxa : (x == a) = false := by simp [hx]
      simp [List.filter_cons, List.lookup, hp, hxa, ih]
    · simp only [List.filter_cons, show (p.1 != a) = true by simp [hp],
        if_true, List.lookup, ih]

theorem getAccount_setAccount (accounts : Accounts) (a x : String)
    (acct : Account) :
    getAccount (setAccount accounts a acct) x =
      if x = a then acct else getAccount accounts x := by
  unfold getAccount setAccount
  by_cases hx : x = a
  · simp [hx, List.lookup]
  · rw [if_neg hx]
    simp only [List.lookup, show (x == a) = false by simp [hx],
      lookup_filter_ne accounts a x hx]

theorem transferFunds_nonce (accounts : Accounts) (f t : String)
    (amount : Nat) (x : String) :
    (getAccount (transferFunds accounts f t amount).2 x).nonce
      = (getAccount accounts x).nonce := by
  unfold transferFunds
  by_cases h : (getAccount accounts f).balance < amount
  · simp [h]
  · simp only [h, if_false]
    simp only [getAccount_setAccount]
    split_ifs <;> simp_all

/-! ## The success shape of `push` -/

theorem push_ok_inv (st : ChainState) (m : Message) (sm : SignedMessage)
    (st' : ChainState) (h : push st m = (Except.ok sm, st')) :
    sm = { message := { m with nonce := assignedNonce st m },
           sigType := SigType.SigTypeBLS } ∧
    st' = { st with messagePool := st.messagePool ++ [sm] } := by
  simp only [push] at h
  split_ifs at h
  · simp at h
  · simp at h
  · simp at h
  · simp at h
  · simp at h
  · rw [Prod.mk.injEq] at h
    obtain ⟨h1, h2⟩ := h
    injection h1 with h1
    subst h1
    exact ⟨rfl, h2.symm⟩

/-! ## Concrete states used by the witnesses -/

/-- A sender address of BLS protocol with committed nonce 5 and one pending
pool message of nonce 0. -/
def cexSender : String := "t3sender"

/-- The pending pool entry of `cexSender`, carrying nonce 0. -/
def cexPendingMsg : SignedMessage :=
  { message := { from_ := cexSender, to_ := "t3receiver", nonce := 0,
                 value := 0, method := 0, gasLimit := 0, gasFeeCap := 0,
                 gasPremium := 0 },
    sigType := SigType.SigTypeBLS }

/-- A chain state whose account ledger gives `cexSender` balance 100 and
nonce 5 while the pool already holds `cexPendingMsg`. -/
def cexState : ChainState :=
  { messagePool := [cexPendingMsg]
    accounts := [(cexSender, { balance := 100, nonce := 5 })]
    latest := { blocks := [], height := 0 }
    blockMessages := []
    deals := []
    inProcessDealIds := [] }

/-- A fresh value transfer submitted by `cexSender`. -/
def cexMsg : Message :=
  { from_ := cexSender, to_ := "t3receiver", nonce := 0, value := 1,
    method := 0, gasLimit := 1, gasFeeCap := 1, gasPremium := 0 }

/-- The signed message `push cexState cexMsg` produces: the engine assigns
nonce `max(5, 0) + 1 = 6`. -/
def cexSigned : SignedMessage :=
  { message := { cexMsg with nonce := 6 }, sigType := SigType.SigTypeBLS }

/-- C1, counterexample.  The claim computes the pool-nonempty nonce as
`max(p.nonce for p in P) + 1`; the code folds the maximum starting from
`account.nonce` (blockchain.ts lines 313-319).  With committed nonce 5 and a
single pending message of nonce 0, the code assigns 6 while the claimed
formula yields `0 + 1 = 1`. -/
theorem push_nonce_claim_counterexample :
    (push cexState cexMsg).1 = Except.ok cexSigned ∧
    cexSigned.message.nonce = 6 ∧
    ((pendingFor cexState cexMsg.from_).foldl
        (fun nonce q => max nonce q.message.nonce) 0) + 1 = 1 ∧
    (6 : Nat) ≠ 1 := by
  decide

/-- C1, amended.  For every call to `push` that passes validation, under the
pool lock: if the set `P` of pending pool messages from the same sender is
empty, the message's nonce is assigned `account.nonce`; otherwise it is
assigned the fold of `max` over the nonces of `P` seeded with
`account.nonce`, plus 1 (equivalently `max(account.nonce, max(p.nonce for p
in P)) + 1`). -/
theorem push_nonce_assignment (st : ChainState) (m : Message)
    (sm : SignedMessage) (st' : ChainState)
    (h : push st m = (Except.ok sm, st')) :
    sm.message.nonce =
      if (pendingFor st m.from_).length = 0 then
        (getAccount st.accounts m.from_).nonce
      else
        ((pendingFor st m.from_).foldl
          (fun nonce q => max nonce q.message.nonce)
          (getAccount st.accounts m.from_).nonce) + 1 := by
  obtain ⟨h1, -⟩ := push_ok_inv st m sm st' h
  subst h1
  rfl

/-- C1, witness: the amended nonce rule evaluated on the concrete state. -/
theorem push_nonce_assignment_witness :
    cexSigned.message.nonce =
      if (pendingFor cexState cexMsg.from_).length = 0 then
        (getAccount cexState.accounts cexMsg.from_).nonce
      else
        ((pendingFor cexState cexMsg.from_).foldl
          (fun nonce q => max nonce q.message.nonce)
          (getAccount cexState.accounts cexMsg.from_).nonce) + 1 :=
  push_nonce_assignment cexState cexMsg cexSigned
    { cexState with messagePool := [cexPendingMsg, cexSigned] }
    (by decide)

/-- C3.  For every call to `push` that passes the structural validation:
when the sender's balance is below `gasFeeCap * gasLimit + value` for the
new message plus the sum of the same quantity over the sender's pending pool
messages, `push` raises `InsufficientFunds` and leaves the whole state — in
particular the message pool — unmodified (blockchain.ts lines 322-342). -/
theorem push_insufficient_funds_rejected (st : ChainState) (m : Message)
    (h0 : m.method = 0) (h1 : m.nonce = 0)
    (h2 : ¬(parseProtocol m.from_ = AddressProtocol.ID ∨
            parseProtocol m.from_ = AddressProtocol.Unknown))
    (h3 : ¬(parseProtocol m.to_ = AddressProtocol.ID ∨
            parseProtocol m.to_ = AddressProtocol.Unknown))
    (hbal : (getAccount st.accounts m.from_).balance <
        m.gasFeeCap * m.gasLimit + m.value +
          pendingRequired (pendingFor st m.from_)) :
    push st m = (Except.error PushError.InsufficientFunds, st) := by
  simp only [push, h0, h1, h2, h3, requiredFor]
  rw [if_pos hbal]
  simp

/-- A poor account: balance 5. -/
def w3State : ChainState :=
  { messagePool := []
    accounts := [("t3poor", { balance := 5, nonce := 0 })]
    latest := { blocks := [], height := 0 }
    blockMessages := []
    deals := []
    inProcessDealIds := [] }

/-- A transfer of 10 attoFIL from the poor account. -/
def w3Msg : Message :=
  { from_ := "t3poor", to_ := "t3rich", nonce := 0, value := 10,
    method := 0, gasLimit := 0, gasFeeCap := 0, gasPremium := 0 }

/-- C3, witness: pushing value 10 from a balance-5 account is rejected with
`InsufficientFunds` and the state is unchanged. -/
theorem push_insufficient_funds_rejected_witness :
    push w3State w3Msg = (Except.error PushError.InsufficientFunds, w3State) :=
  push_insufficient_funds_rejected w3State w3Msg (by decide) (by decide)
    (by decide) (by decide) (by decide)

/-- C6.  For every call to `push`: a non-zero method is rejected with
`UnsupportedMethod`; a zero method with non-zero submitted nonce is rejected
with `InvalidNonce`; with both checks passed, a sender or receiver whose
protocol is ID or Unknown is rejected with `InvalidProtocol`; in each case
the state — in particular the message pool — is unmodified (blockchain.ts
lines 263-292). -/
theorem push_validation_errors (st : ChainState) (m : Message) :
    (m.method ≠ 0 →
      push st m = (Except.error PushError.UnsupportedMethod, st)) ∧
    (m.method = 0 → m.nonce ≠ 0 →
      push st m = (Except.error PushError.InvalidNonce, st)) ∧
    (m.method = 0 → m.nonce = 0 →
      (parseProtocol m.from_ = AddressProtocol.ID ∨
       parseProtocol m.from_ = AddressProtocol.Unknown ∨
       parseProtocol m.to_ = AddressProtocol.ID ∨
       parseProtocol m.to_ = AddressProtocol.Unknown) →
      push st m = (Except.error PushError.InvalidProtocol, st)) := by
  refine ⟨?_, ?_, ?_⟩
  · intro hm
    simp [push, hm]
  · intro hm hn
    simp [push, hm, hn]
  · intro hm hn hp
    by_cases hf : parseProtocol m.from_ = AddressProtocol.ID ∨
        parseProtocol m.from_ = AddressProtocol.Unknown
    · simp [push, hm, hn, hf]
    · have ht : parseProtocol m.to_ = AddressProtocol.ID ∨
          parseProtocol m.to_ = AddressProtocol.Unknown := by
        tauto
      simp [push, hm, hn, hf, ht]

/-- An empty engine state. -/
def w6State : ChainState :=
  { messagePool := []
    accounts := []
    latest := { blocks := [], height := 0 }
    blockMessages := []
    deals := []
    inProcessDealIds := [] }

/-- A message with method 2. -/
def w6MethodMsg : Message :=
  { from_ := "t3a", to_ := "t3b", nonce := 0, value := 0, method := 2,
    gasLimit := 0, gasFeeCap := 0, gasPremium := 0 }

/-- A method-0 message submitted with nonce 7. -/
def w6NonceMsg : Message :=
  { from_ := "t3a", to_ := "t3b", nonce := 7, value := 0, method := 0,
    gasLimit := 0, gasFeeCap := 0, gasPremium := 0 }

/-- A message whose sender is an ID-protocol address. -/
def w6ProtoMsg : Message :=
  { from_ := "t0id", to_ := "t3b", nonce := 0, value := 0, method := 0,
    gasLimit := 0, gasFeeCap := 0, gasPremium := 0 }

/-- C6, witness: each validation failure evaluated on a concrete message. -/
theorem push_validation_errors_witness :
    push w6State w6MethodMsg =
      (Except.error PushError.UnsupportedMethod, w6State) ∧
    push w6State w6NonceMsg =
      (Except.error PushError.InvalidNonce, w6State) ∧
    push w6State w6ProtoMsg =
      (Except.error PushError.InvalidProtocol, w6State) :=
  ⟨(push_validation_errors w6State w6MethodMsg).1 (by decide),
   (push_validation_errors w6State w6NonceMsg).2.1 (by decide) (by decide),
   (push_validation_errors w6State w6ProtoMsg).2.2 (by decide) (by decide)
     (by decide)⟩

/-- C9.  Every signed message produced by `push` carries signature type
`SigTypeBLS`, for every sender address (blockchain.ts line 349 hardcodes
`SigType.SigTypeBLS`). -/
theorem push_signature_type_bls (st : ChainState) (m : Message)
    (sm : SignedMessage) (st' : ChainState)
    (h : push st m = (Except.ok sm, st')) :
    sm.sigType = SigType.SigTypeBLS := by
  obtain ⟨h1, -⟩ := push_ok_inv st m sm st' h
  subst h1
  rfl

/-- A message from a SECP256K1-protocol sender. -/
def w9Msg : Message :=
  { from_ := "t1secp", to_ := "t1other", nonce := 0, value := 0, method := 0,
    gasLimit := 0, gasFeeCap := 0, gasPremium := 0 }

/-- The signed message `push w6State w9Msg` produces. -/
def w9Signed : SignedMessage :=
  { message := w9Msg, sigType := SigType.SigTypeBLS }

/-- C9, witness: even a SECP256K1-protocol sender's message is signed with
type BLS. -/
theorem push_signature_type_bls_witness :
    parseProtocol "t1secp" = AddressProtocol.SECP256K1 ∧
    w9Signed.sigType = SigType.SigTypeBLS :=
  ⟨by decide,
   push_signature_type_bls w6State w9Msg w9Signed
     { w6State with messagePool := [w9Signed] } (by decide)⟩

/-- A failed transfer leaves the ledger untouched. -/
theorem transferFunds_fail (accounts : Accounts) (f t : String)
    (amount : Nat) (h : (transferFunds accounts f t amount).1 = false) :
    (transferFunds accounts f t amount).2 = accounts := by
  unfold transferFunds at h ⊢
  by_cases hc : (getAccount accounts f).balance < amount
  · simp [hc]
  · simp [hc] at h

/-- C2.  For every message processed during `mineTipset` with a non-zero
base fee, the three transfers are attempted in order — the base-fee burn
from the sender to `BurntFundsAddress`, the miner fee from the sender to the
miner, then the principal value from the sender to the recipient — and a
failure of any of the three for insufficient funds skips the message: the
ledger stays exactly as the earlier transfers left it (nothing is reversed),
the sender's nonce is not incremented, the message is not collected as
successful, and the batch continues with the remaining messages
(blockchain.ts lines 446-513).  `baseFee` and `minerFee` stand for
`getBaseFee()` and `getMinerFee` of `gas.ts`, which is absent from `src/`;
per spec step 4.4a the base-fee debit occurs, so `baseFee ≠ 0` is
assumed. -/
theorem mine_message_failure_skips (baseFee : Nat) (minerFee : Message → Nat)
    (accounts : Accounts) (sm : SignedMessage) (rest : List SignedMessage)
    (r1 r2 r3 : Bool × Accounts)
    (hb : baseFee ≠ 0)
    (e1 : r1 = transferFunds accounts sm.message.from_ BurntFundsAddress
      (minerFee sm.message))
    (e2 : r2 = transferFunds r1.2 sm.message.from_ minerAddress
      (minerFee sm.message))
    (e3 : r3 = transferFunds r2.2 sm.message.from_ sm.message.to_
      sm.message.value) :
    (r1.1 = false →
      applyMessage baseFee minerFee accounts sm = (accounts, false)) ∧
    (r1.1 = true → r2.1 = false →
      applyMessage baseFee minerFee accounts sm = (r1.2, false)) ∧
    (r1.1 = true → r2.1 = true → r3.1 = false →
      applyMessage baseFee minerFee accounts sm = (r2.2, false)) ∧
    ((applyMessage baseFee minerFee accounts sm).2 = false →
      (getAccount (applyMessage baseFee minerFee accounts sm).1
          sm.message.from_).nonce
        = (getAccount accounts sm.message.from_).nonce) ∧
    (applyMessages baseFee minerFee accounts (sm :: rest)
      = ((applyMessages baseFee minerFee
            (applyMessage baseFee minerFee accounts sm).1 rest).1,
         (if (applyMessage baseFee minerFee accounts sm).2 then [sm] else [])
           ++ (applyMessages baseFee minerFee
                 (applyMessage baseFee minerFee accounts sm).1 rest).2)) := by
  subst e1 e2 e3
  refine ⟨?_, ?_, ?_, ?_, rfl⟩
  · intro h1
    have hacc := transferFunds_fail _ _ _ _ h1
    simp only [applyMessage, if_pos hb]
    simp [h1, hacc]
  · intro h1 h2
    have hacc := transferFunds_fail _ _ _ _ h2
    simp only [applyMessage, if_pos hb]
    simp [h1, h2, hacc]
  · intro h1 h2 h3
    have hacc := transferFunds_fail _ _ _ _ h3
    simp only [applyMessage, if_pos hb]
    simp [h1, h2, h3, hacc]
  · intro hskip
    simp only [applyMessage, if_pos hb] at hskip ⊢
    split_ifs at hskip ⊢ <;> simp_all [transferFunds_nonce]

/-- A skipped message: minerFee 5 from an unfunded sender. -/
def w2Msg : SignedMessage :=
  { message := { from_ := "t3x", to_ := "t3y", nonce := 0, value := 0,
                 method := 0, gasLimit := 0, gasFeeCap := 0, gasPremium := 0 },
    sigType := SigType.SigTypeBLS }

/-- C2, witness: with base fee 1 and miner fee 5, a sender with no funds
fails the first transfer and the message is skipped leaving the empty ledger
untouched. -/
theorem mine_message_failure_skips_witness :
    applyMessage 1 (fun _ => 5) [] w2Msg = ([], false) :=
  (mine_message_failure_skips 1 (fun _ => 5) [] w2Msg [] _ _ _
    (by decide) rfl rfl rfl).1 (by decide)

/-- The first block of a non-empty list of blocks, seen through `map`. -/
theorem headD_map {α β : Type} (f : α → β) (l : List α) (d : β) (d' : α)
    (h : l ≠ []) : (l.map f).headD d = f (l.headD d') := by
  cases l with
  | nil => exact absurd rfl h
  | cons a t => rfl

/-- C4.  For every call to `mineTipset(n)` with `n > 0` on a state with a
non-empty latest tipset: the `n` new block headers all have height
`latest.height + 1`, parents `[latest.cids[0]]`, parent weight
`latest.blocks[0].electionProof.winCount + latest.blocks[0].parentWeight`
and miner `t01000`; and when the drained batch is non-empty, the
successfully applied messages are persisted as the block-messages entry of
the first new block (blockchain.ts lines 426-444 and 516-519). -/
theorem mineTipset_block_construction (blockCid : BlockHeader → Nat)
    (baseFee : Nat) (minerFee : Message → Nat) (n : Nat) (st : ChainState)
    (hn : 0 < n) (hblocks : st.latest.blocks ≠ []) :
    (mineTipset blockCid baseFee minerFee n st).latest.blocks.length = n ∧
    (mineTipset blockCid baseFee minerFee n st).latest.height
      = st.latest.height + 1 ∧
    (∀ b ∈ (mineTipset blockCid baseFee minerFee n st).latest.blocks,
      b.height = st.latest.height + 1 ∧
      b.parents = [blockCid (st.latest.blocks.headD default)] ∧
      b.parentWeight = (st.latest.blocks.headD default).winCount
          + (st.latest.blocks.headD default).parentWeight ∧
      b.miner = "t01000") ∧
    (st.messagePool ≠ [] →
      (mineTipset blockCid baseFee minerFee n st).blockMessages
        = st.blockMessages ++
          [(blockCid
              ((mineTipset blockCid baseFee minerFee n st).latest.blocks.headD
                default),
            (applyMessages baseFee minerFee st.accounts st.messagePool).2)]) := by
  obtain ⟨a, t, hbl⟩ : ∃ a t, st.latest.blocks = a :: t := by
    cases hb : st.latest.blocks with
    | nil => exact absurd hb hblocks
    | cons a t => exact ⟨a, t, rfl⟩
  obtain ⟨k, hk⟩ : ∃ k, n = k + 1 :=
    ⟨n - 1, (Nat.succ_pred_eq_of_pos hn).symm⟩
  subst hk
  refine ⟨by simp [mineTipset], rfl, ?_, ?_⟩
  · intro b hb
    have hbeq := List.eq_of_mem_replicate hb
    subst hbeq
    refine ⟨rfl, ?_, rfl, rfl⟩
    simp [Tipset.cids, hbl]
  · intro hpool
    have hlen : 0 < st.messagePool.length := List.length_pos.mpr hpool
    simp [mineTipset, hlen, List.replicate_succ, Tipset.cids, hbl]

/-- A unit-weight block for the concrete mining state. -/
def w4Block : BlockHeader :=
  { miner := "t01000", parents := [], height := 0, parentWeight := 0,
    winCount := 1 }

/-- A pending value transfer for the concrete mining state. -/
def w4Msg : SignedMessage :=
  { message := { from_ := "t3m", to_ := "t3n", nonce := 0, value := 0,
                 method := 0, gasLimit := 0, gasFeeCap := 0, gasPremium := 0 },
    sigType := SigType.SigTypeBLS }

/-- A state with a single-block latest tipset and one pooled message. -/
def w4State : ChainState :=
  { messagePool := [w4Msg]
    accounts := []
    latest := { blocks := [w4Block], height := 0 }
    blockMessages := []
    deals := []
    inProcessDealIds := [] }

/-- The block-CID hash used by the concrete mining runs. -/
def w4Cid : BlockHeader → Nat := fun b => b.parentWeight

/-- C4, witness: mining two blocks over the concrete state. -/
theorem mineTipset_block_construction_witness :
    (mineTipset w4Cid 0 (fun _ => 0) 2 w4State).latest.blocks.length = 2 ∧
    (mineTipset w4Cid 0 (fun _ => 0) 2 w4State).blockMessages
      = w4State.blockMessages ++
        [(w4Cid
            ((mineTipset w4Cid 0 (fun _ => 0) 2 w4State).latest.blocks.headD
              default),
          (applyMessages 0 (fun _ => 0) w4State.accounts
            w4State.messagePool).2)] :=
  ⟨(mineTipset_block_construction w4Cid 0 (fun _ => 0) 2 w4State (by decide)
      (by decide)).1,
   (mineTipset_block_construction w4Cid 0 (fun _ => 0) 2 w4State (by decide)
      (by decide)).2.2.2 (by decide)⟩

/-- Two in-process deals: deal 1 one step short of `Active`, deal 2 freshly
`Validating`. -/
def w5State : ChainState :=
  { messagePool := []
    accounts := []
    latest := { blocks := [], height := 0 }
    blockMessages := []
    deals := [{ dealId := 1, state := StorageDealStatus.Sealing },
              { dealId := 2, state := StorageDealStatus.Validating }]
    inProcessDealIds := [1, 2] }

/-- C5, code-bug evidence.  The deal-advancement loop of `mineTipset`
(blockchain.ts lines 534-541) splices `inProcessDeals` while iterating over
it with `for...of`: removing the deal that just reached `Active` shifts the
array under the iterator, so the deal that directly followed it is never
visited.  Evaluating the embedded loop on the concrete state: deal 1
advances `Sealing → Active` and is removed, but deal 2 — still in process —
is left at `Validating`, i.e. it is not advanced by this `mineTipset` call,
contradicting the claim that every in-process deal advances exactly one
state per call (and making that deal reach `Active` one tipset later than
the claimed count). -/
theorem mineTipset_deal_advance_skip :
    (mineTipset (fun _ => 0) 0 (fun _ => 0) 1 w5State).deals
      = [{ dealId := 1, state := StorageDealStatus.Active },
         { dealId := 2, state := StorageDealStatus.Validating }] ∧
    (mineTipset (fun _ => 0) 0 (fun _ => 0) 1 w5State).inProcessDealIds
      = [2] := by
  decide

/-- `mineTipset` bumps the latest height by exactly one. -/
theorem mineTipset_height (blockCid : BlockHeader → Nat) (baseFee : Nat)
    (minerFee : Message → Nat) (n : Nat) (st : ChainState) :
    (mineTipset blockCid baseFee minerFee n st).latest.height
      = st.latest.height + 1 := rfl

/-- `k` mining rounds raise the latest height by exactly `k`. -/
theorem mineN_height (blockCid : BlockHeader → Nat) (baseFee : Nat)
    (minerFee : Message → Nat) (k : Nat) (st : ChainState) :
    (mineN blockCid baseFee minerFee k st).latest.height
      = st.latest.height + k := by
  induction k with
  | zero => rfl
  | succ k ih =>
    simp only [mineN, mineTipset_height, ih]
    omega

/-- C7.  `mineTipset` produces a new tipset even when the drained message
pool is empty, every produced tipset's height is exactly the previous latest
height plus one, and tipset heights are strictly increasing across
successive `mineTipset` calls (blockchain.ts lines 425-426 and 522-531). -/
theorem mineTipset_height_strictly_increasing (blockCid : BlockHeader → Nat)
    (baseFee : Nat) (minerFee : Message → Nat) (n : Nat) (st : ChainState) :
    (mineTipset blockCid baseFee minerFee n
        { st with messagePool := [] }).latest.height
      = st.latest.height + 1 ∧
    (mineTipset blockCid baseFee minerFee n st).latest.height
      = st.latest.height + 1 ∧
    (∀ j k : Nat, j < k →
      (mineN blockCid baseFee minerFee j st).latest.height
        < (mineN blockCid baseFee minerFee k st).latest.height) := by
  refine ⟨rfl, rfl, ?_⟩
  intro j k hjk
  rw [mineN_height, mineN_height]
  omega

/-- C7, witness: after two rounds the height strictly exceeds the height
after zero rounds. -/
theorem mineTipset_height_strictly_increasing_witness :
    (mineN (fun _ => 0) 0 (fun _ => 0) 0 w6State).latest.height
      < (mineN (fun _ => 0) 0 (fun _ => 0) 2 w6State).latest.height :=
  (mineTipset_height_strictly_increasing (fun _ => 0) 0 (fun _ => 0) 1
    w6State).2.2 0 2 (by decide)

/-- C8.  For every successful `startDeal` call (wallet provided, its key
known, and — under instamine — the mining loop returned): after deal
registration and mining, `epochPrice * duration` is transferred from the
wallet to `proposal.miner` unconditionally — the transfer's boolean result
is discarded, so even when the wallet's balance is insufficient the call
still returns `ok` with the proposal CID and the ledger is simply left
unchanged (blockchain.ts lines 703-711). -/
theorem startDeal_transfer_unconditional (blockCid : BlockHeader → Nat)
    (baseFee : Nat) (minerFee : Message → Nat) (instamine : Bool)
    (fuel : Nat) (proposalCid : Nat) (w : String) (knownKeys : List String)
    (dealMiner : String) (epochPrice duration : Nat) (st st2 : ChainState)
    (hkey : w ∈ knownKeys)
    (hmine : (if instamine then
        mineUntilActive blockCid baseFee minerFee (registerDeal st).2 fuel
          (registerDeal st).1
      else some (registerDeal st).1) = some st2) :
    startDeal blockCid baseFee minerFee instamine fuel proposalCid (some w)
        knownKeys dealMiner epochPrice duration st
      = some (Except.ok (proposalCid,
          { st2 with accounts :=
              (transferFunds st2.accounts w dealMiner
                (epochPrice * duration)).2 })) ∧
    ((getAccount st2.accounts w).balance < epochPrice * duration →
      (transferFunds st2.accounts w dealMiner (epochPrice * duration)).2
        = st2.accounts) := by
  constructor
  · simp only [startDeal, if_pos hkey, hmine]
  · intro hbal
    unfold transferFunds
    simp [hbal]

/-- C8, witness: a fresh deal from an unfunded wallet (balance 0, price
5 × 2 = 10): the transfer fails, fails to move anything, and `startDeal`
still returns the proposal CID. -/
theorem startDeal_transfer_unconditional_witness :
    startDeal (fun _ => 0) 0 (fun _ => 0) false 0 7 (some "t3w") ["t3w"]
        "t01000" 5 2 w6State
      = some (Except.ok (7,
          { (registerDeal w6State).1 with accounts :=
              (transferFunds (registerDeal w6State).1.accounts "t3w" "t01000"
                (5 * 2)).2 })) ∧
    (transferFunds (registerDeal w6State).1.accounts "t3w" "t01000"
        (5 * 2)).2
      = (registerDeal w6State).1.accounts :=
  ⟨(startDeal_transfer_unconditional (fun _ => 0) 0 (fun _ => 0) false 0 7
      "t3w" ["t3w"] "t01000" 5 2 w6State (registerDeal w6State).1
      (by decide) rfl).1,
   (startDeal_transfer_unconditional (fun _ => 0) 0 (fun _ => 0) false 0 7
      "t3w" ["t3w"] "t01000" 5 2 w6State (registerDeal w6State).1
      (by decide) rfl).2 (by decide)⟩

/-- C10.  For every call to `retrieve`: when the engine does not hold the
private key of `order.client`, `retrieve` raises an error with the state —
files and ledger — untouched; and the transfer of `order.total` from the
client to the miner happens only when the object was found locally and the
download ran to completion, in which case the file has been fully written
(blockchain.ts lines 727-752). -/
theorem retrieve_effect_order (localObjects : List Nat)
    (knownKeys : List String) (downloadOk : Bool) (client dealMiner : String)
    (total root : Nat) (refPath : String) (st : RetrievalState) :
    (knownKeys.contains client = false →
      retrieve localObjects knownKeys downloadOk client dealMiner total root
          refPath st
        = (Except.error RetrieveError.UnknownPrivateKey, st)) ∧
    ((retrieve localObjects knownKeys downloadOk client dealMiner total root
          refPath st).2.accounts ≠ st.accounts →
      localObjects.contains root = true ∧ downloadOk = true ∧
      (retrieve localObjects knownKeys downloadOk client dealMiner total root
          refPath st).2.files = st.files ++ [refPath] ∧
      (retrieve localObjects knownKeys downloadOk client dealMiner total root
          refPath st).2.accounts
        = (transferFunds st.accounts client dealMiner total).2) := by
  constructor
  · intro hk
    have hk' : client ∉ knownKeys := by
      simpa using hk
    simp [retrieve, hk, hk']
  · intro hch
    simp only [retrieve] at hch ⊢
    split_ifs at hch ⊢ <;> simp_all

/-- A funded retrieval client. -/
def w10State : RetrievalState :=
  { accounts := [("t3client", { balance := 5, nonce := 0 })]
    files := []
    tempFiles := [] }

/-- C10, witness: with an unknown client key the call errors and leaves the
state untouched; with the key known, the object local and the download
complete, the file is written and the payment moves. -/
theorem retrieve_effect_order_witness :
    retrieve [0] [] true "t3client" "t01000" 1 0 "file.bin" w10State
      = (Except.error RetrieveError.UnknownPrivateKey, w10State) ∧
    (List.contains [0] 0 = true ∧ true = true ∧
      (retrieve [0] ["t3client"] true "t3client" "t01000" 1 0 "file.bin"
          w10State).2.files = w10State.files ++ ["file.bin"] ∧
      (retrieve [0] ["t3client"] true "t3client" "t01000" 1 0 "file.bin"
          w10State).2.accounts
        = (transferFunds w10State.accounts "t3client" "t01000" 1).2) :=
  ⟨(retrieve_effect_order [0] [] true "t3client" "t01000" 1 0 "file.bin"
      w10State).1 (by decide),
   (retrieve_effect_order [0] ["t3client"] true "t3client" "t01000" 1 0
      "file.bin" w10State).2 (by decide)⟩

end GanacheFilecoin
